import Mathlib

/-!
Verification of the fee-pool subsystem of dashevo/rs-drive.

The development shallowly embeds the Rust source:
* machine integers become `Nat`/`Int` with explicit `% 2^64` where overflow
  matters;
* `rust_decimal::Decimal` values become `ℚ`.  Every `Decimal` operation the
  embedded code performs (integer construction, multiplication by a scale-4
  table constant, division by 20, `floor`, subtraction of integers) is exact
  for the operand ranges that occur (mantissas stay far below `2^96` and all
  divisions are by `20`, which terminates in decimal), so `ℚ` is a faithful
  model of those runs;
* the authenticated key-value store (grovedb, an external collaborator) is
  modelled by explicit item slots (`Option` of byte lists or values), and
  batched mutations by an explicit operation list;
* fallible code returns `Except`.
-/

/-! ## Error taxonomy (src/drive/src/error, src/dash-abci/src/error) -/

/-- grovedb error kinds distinguished by the embedded code. -/
inductive GroveError
  | pathKeyNotFound
  | pathNotFound
  | invalidPath
  | otherInternal
  deriving DecidableEq, Repr

/-- `error::fee::FeeError` variants used by the embedded functions. -/
inductive FeeError
  | corruptedStorageFeePoolInvalidItemLength (msg : String)
  | corruptedStorageFeePoolNotItem (msg : String)
  | corruptedStorageFeeInvalidItemLength (msg : String)
  | corruptedStorageFeeNotItem (msg : String)
  | corruptedProcessingFeeInvalidItemLength (msg : String)
  | corruptedProcessingFeeNotItem (msg : String)
  | corruptedStartBlockHeightItemLength
  | corruptedStartBlockHeightNotItem
  | corruptedProposerBlockCountItemLength (msg : String)
  deriving DecidableEq, Repr

/-- `error::drive::DriveError` variants used by the embedded functions. -/
inductive DriveError
  | corruptedGenesisTimeInvalidItemLength
  | corruptedGenesisTimeNotItem
  | corruptedCodeExecution (msg : String)
  deriving DecidableEq, Repr

/-- `dash-abci` `error::execution::ExecutionError` variants. -/
inductive ExecutionError
  | driveIncoherence (msg : String)
  | corruptedCodeExecution (msg : String)
  | blockBeforeGenesis
  deriving DecidableEq, Repr

/-- The combined error type (`Error` in both crates). -/
inductive Error
  | groveDB (e : GroveError)
  | fee (e : FeeError)
  | drive (e : DriveError)
  | execution (e : ExecutionError)
  deriving DecidableEq, Repr

/-! ## The fee distribution tables (spec §4.5) -/

/-- Modelled from the spec: the numerators, at scale `10^5`, of the 50 yearly
ratios of dash-abci's `execution::constants::FEE_DISTRIBUTION_TABLE`
(`0.050 = 5000/100000`, …, `0.00125 = 125/100000`) — that module is not
under src/ (only its user `distribute_storage_fee_distribution_pool_to_epochs_operations`
is); spec §4.5 lists these ratios and notes they sum to exactly 1.  The
drive crate's own table (src/drive/src/fee/pools/constants.rs), the one the
drive-generation `StorageFeeDistributionPool::distribute` imports, differs
in its last entry and is embedded separately below as
`driveFeeDistributionTableNums`. -/
def feeDistributionTableNums : List ℕ :=
  [5000, 4800, 4600, 4400, 4200, 4000, 3850, 3700, 3550, 3400,
   3250, 3100, 2950, 2850, 2750, 2650, 2550, 2450, 2350, 2250,
   2150, 2050, 1950, 1875, 1800, 1725, 1650, 1575, 1500, 1425,
   1350, 1275, 1200, 1125, 1050,  975,  900,  825,  750,  675,
    600,  525,  475,  425,  375,  325,  275,  225,  175,  125]

/-- `FEE_DISTRIBUTION_TABLE[year]` as an exact rational. -/
def feeDistributionTable (year : ℕ) : ℚ :=
  (feeDistributionTableNums.getD year 0 : ℚ) / 100000

/-! ## u64 arithmetic -/

/-- `u64::MAX`. -/
def U64_MAX : ℕ := 18446744073709551615

/-- Addition of two `u64` values (wrapping, as in a release build). -/
def u64add (a b : ℕ) : ℕ := (a + b) % (U64_MAX + 1)

/-- `rust_decimal`'s `Decimal::to_u64` on an integer-valued decimal:
`None` when negative or above `u64::MAX`. -/
def intToU64 (z : ℤ) : Option ℕ :=
  if 0 ≤ z ∧ z ≤ (U64_MAX : ℤ) then some z.toNat else none

/-- `rust_decimal`'s `Decimal::to_u64` on an arbitrary decimal: `None` when
negative, otherwise the integer part (truncation), `None` above `u64::MAX`. -/
def ratToU64 (q : ℚ) : Option ℕ :=
  if 0 ≤ q ∧ ⌊q⌋ ≤ (U64_MAX : ℤ) then some ⌊q⌋.toNat else none

/-! ## Storage-fee distribution, dash-abci generation
(src/dash-abci/src/execution/epoch_change/distribute_storage_pool.rs,
`Platform::distribute_storage_fee_distribution_pool_to_epochs_operations`)

Epoch storage credits are `u64` items; the function reads them through
`Drive::get_epoch_storage_credits_for_distribution`
(src/drive/src/drive/fee_pools/epochs/credit_distribution_pools.rs) and pushes
update operations into a `GroveDbOpBatch` which the caller later applies. -/

/-- A store operation pushed into the batch by the distribution code:
`Epoch::add_update_storage_fee_operations` writes the `u64` storage-credit
item of one epoch; `update_storage_fee_distribution_pool_operation`
(src/drive/src/fee_pools/mod.rs) writes the aggregate pool item. -/
inductive GroveOp
  | updateEpochStorageFee (index : ℕ) (value : ℕ)
  | updateStoragePool (value : ℕ)
  deriving DecidableEq, Repr

/-- The store state the distribution touches: the `u64` storage-credit item of
each epoch (`none` = item absent) and the aggregate pool item. -/
structure PoolsState where
  credits : ℕ → Option ℕ
  pool : ℕ

/-- Applying one batched operation to the store. -/
def applyOp (s : PoolsState) : GroveOp → PoolsState
  | .updateEpochStorageFee j v =>
      { s with credits := fun k => if k = j then some v else s.credits k }
  | .updateStoragePool v => { s with pool := v }

/-- `Drive::grove_apply_batch`: operations applied in order. -/
def applyOps (s : PoolsState) (ops : List GroveOp) : PoolsState :=
  ops.foldl applyOp s

/-- `Drive::get_epoch_storage_credits_for_distribution` as seen from the
distribution loop: the epoch's `u64` item, or grovedb's path-key-not-found
error when the item is absent. -/
def getEpochStorageCredits (credits : ℕ → Option ℕ) (index : ℕ) :
    Except Error ℕ :=
  match credits index with
  | some v => .ok v
  | none => .error (.groveDB .pathKeyNotFound)

/-- `epoch_fee_share_dec = (year_fee_share / EPOCHS_PER_YEAR_DEC).floor()`
for pool balance `P` (a `u64`) and one year. -/
def epochFeeShareDec (P : ℕ) (year : ℕ) : ℤ :=
  ⌊(P : ℚ) * feeDistributionTable year / 20⌋

/-- The inner loop `for index in starting_epoch_index..starting_epoch_index + 20`:
reads each epoch's credits, pushes the update operation, and withdraws the
floored share from the buffer.  The Rust `?` operator is the explicit match on
the result.  `ks` instantiates to `List.range 20`. -/
def distributeEpochsOfYear (credits : ℕ → Option ℕ) (epochFeeShare : ℕ)
    (shareDec : ℤ) (start : ℕ) :
    List ℕ → ℚ → Except Error (ℚ × List GroveOp)
  | [], buffer => .ok (buffer, [])
  | k :: ks, buffer =>
      match getEpochStorageCredits credits (start + k) with
      | .error e => .error e
      | .ok storageFee =>
          match distributeEpochsOfYear credits epochFeeShare shareDec start ks
            (buffer - (shareDec : ℚ)) with
          | .error e => .error e
          | .ok (buffer', ops) => .ok (buffer',
              GroveOp.updateEpochStorageFee (start + k)
                (u64add storageFee epochFeeShare) :: ops)

/-- The outer loop `for year in 0..50u16`: computes the year's floored epoch
share, converts it to `u64` (`to_u64`, error when it does not fit), and runs
the inner loop.  `years` instantiates to `List.range 50`. -/
def distributeYears (P : ℕ) (epochIndex : ℕ) (credits : ℕ → Option ℕ) :
    List ℕ → ℚ → Except Error (ℚ × List GroveOp)
  | [], buffer => .ok (buffer, [])
  | year :: years, buffer =>
      match intToU64 (epochFeeShareDec P year) with
      | none => .error (.fee (.corruptedStorageFeePoolInvalidItemLength
          "storage distribution fees are not fitting in a u64"))
      | some epochFeeShare =>
          match distributeEpochsOfYear credits epochFeeShare
            (epochFeeShareDec P year) (epochIndex + year * 20)
            (List.range 20) buffer with
          | .error e => .error e
          | .ok (buffer₁, ops₁) =>
              match distributeYears P epochIndex credits years buffer₁ with
              | .error e => .error e
              | .ok (buffer₂, ops₂) => .ok (buffer₂, ops₁ ++ ops₂)

/-- `Platform::distribute_storage_fee_distribution_pool_to_epochs_operations`:
reads the pool balance `P` (a `u64`), returns an empty batch when it is zero,
otherwise distributes over 50 years × 20 epochs and appends the pool
write-back of the remaining buffer. -/
def distributeStorageFeeDistributionPoolToEpochsOperations
    (P : ℕ) (epochIndex : ℕ) (credits : ℕ → Option ℕ) :
    Except Error (List GroveOp) :=
  if (P : ℚ) = 0 then .ok []
  else
    match distributeYears P epochIndex credits (List.range 50) (P : ℚ) with
    | .error e => .error e
    | .ok (buffer, ops) =>
        match ratToU64 buffer with
        | none => .error (.fee (.corruptedStorageFeePoolInvalidItemLength
            "storage distribution fees are not fitting in a u64"))
        | some leftover => .ok (ops ++ [GroveOp.updateStoragePool leftover])

/-- Total `u64` credits the distribution hands out: each year's floored share
is credited to 20 epochs. -/
def totalCredited (P : ℕ) : ℤ :=
  ∑ y ∈ Finset.range 50, 20 * epochFeeShareDec P y

/-- The operations one year's inner loop pushes. -/
def yearOps (P : ℕ) (epochIndex : ℕ) (credits : ℕ → Option ℕ) (year : ℕ) :
    List GroveOp :=
  (List.range 20).map (fun k => GroveOp.updateEpochStorageFee
    (epochIndex + year * 20 + k)
    (u64add ((credits (epochIndex + year * 20 + k)).getD 0)
      (epochFeeShareDec P year).toNat))

theorem distributeEpochsOfYear_eq (credits : ℕ → Option ℕ) (share : ℕ)
    (shareDec : ℤ) (start : ℕ) (ks : List ℕ) (buffer : ℚ)
    (h : ∀ k ∈ ks, (credits (start + k)).isSome) :
    distributeEpochsOfYear credits share shareDec start ks buffer =
      .ok (buffer - ks.length * shareDec,
        ks.map (fun k => GroveOp.updateEpochStorageFee (start + k)
          (u64add ((credits (start + k)).getD 0) share))) := by
  induction ks generalizing buffer with
  | nil => simp [distributeEpochsOfYear]
  | cons k ks ih =>
      obtain ⟨v, hv⟩ := Option.isSome_iff_exists.mp
        (h k (List.mem_cons_self _ _))
      rw [distributeEpochsOfYear]
      rw [ih (buffer - (shareDec : ℚ))
        (fun k hk => h k (List.mem_cons_of_mem _ hk))]
      simp [getEpochStorageCredits, hv]
      ring

theorem distributeYears_eq (P : ℕ) (epochIndex : ℕ) (credits : ℕ → Option ℕ)
    (years : List ℕ) (buffer : ℚ)
    (hfit : ∀ y ∈ years, 0 ≤ epochFeeShareDec P y ∧
      epochFeeShareDec P y ≤ (U64_MAX : ℤ))
    (hinit : ∀ y ∈ years, ∀ k < 20,
      (credits (epochIndex + y * 20 + k)).isSome) :
    distributeYears P epochIndex credits years buffer =
      .ok (buffer -
          (years.map (fun y => ((20 * epochFeeShareDec P y : ℤ) : ℚ))).sum,
        years.flatMap (yearOps P epochIndex credits)) := by
  induction years generalizing buffer with
  | nil => simp [distributeYears]
  | cons y ys ih =>
      have hfy := hfit y (List.mem_cons_self _ _)
      have hu : intToU64 (epochFeeShareDec P y) =
          some (epochFeeShareDec P y).toNat := by
        simp [intToU64, hfy.1, hfy.2]
      rw [distributeYears, hu]
      dsimp only
      rw [distributeEpochsOfYear_eq credits _ _ _ _ _
        (fun k hk => hinit y (List.mem_cons_self _ _) k (List.mem_range.mp hk))]
      dsimp only
      rw [ih _ (fun y hy => hfit y (List.mem_cons_of_mem _ hy))
        (fun y hy => hinit y (List.mem_cons_of_mem _ hy))]
      simp only [List.flatMap_cons, List.map_cons, List.sum_cons, yearOps,
        Except.ok.injEq, Prod.mk.injEq, List.length_range]
      refine ⟨?_, trivial⟩
      push_cast
      ring

theorem feeDistributionTableNums_getD_le (y : ℕ) :
    feeDistributionTableNums.getD y 0 ≤ 5000 := by
  have hall : ∀ n ∈ feeDistributionTableNums, n ≤ 5000 := by decide
  rcases lt_or_ge y feeDistributionTableNums.length with h | h
  · exact hall _ (by rw [List.getD_eq_getElem _ _ h]; exact List.getElem_mem h)
  · rw [List.getD_eq_default _ _ h]
    exact Nat.zero_le _

theorem feeDistributionTable_nonneg (y : ℕ) : 0 ≤ feeDistributionTable y := by
  unfold feeDistributionTable
  positivity

theorem feeDistributionTable_le_one (y : ℕ) : feeDistributionTable y ≤ 1 := by
  unfold feeDistributionTable
  rw [div_le_one (by norm_num)]
  have := feeDistributionTableNums_getD_le y
  have : (feeDistributionTableNums.getD y 0 : ℚ) ≤ 5000 := by exact_mod_cast this
  linarith

theorem epochFeeShareDec_nonneg (P y : ℕ) : 0 ≤ epochFeeShareDec P y := by
  unfold epochFeeShareDec
  apply Int.floor_nonneg.mpr
  have h0 := feeDistributionTable_nonneg y
  positivity

theorem epochFeeShareDec_le (P y : ℕ) (hP : P ≤ U64_MAX) :
    epochFeeShareDec P y ≤ (U64_MAX : ℤ) := by
  unfold epochFeeShareDec
  have h1 : (P : ℚ) * feeDistributionTable y / 20 ≤ (P : ℚ) := by
    have h0 := feeDistributionTable_nonneg y
    have h2 := feeDistributionTable_le_one y
    have hp : (0 : ℚ) ≤ (P : ℚ) := by positivity
    nlinarith
  calc ⌊(P : ℚ) * feeDistributionTable y / 20⌋ ≤ ⌊(P : ℚ)⌋ :=
        Int.floor_le_floor h1
    _ = (P : ℤ) := Int.floor_natCast P
    _ ≤ (U64_MAX : ℤ) := by exact_mod_cast hP

theorem list_sum_map_range (n : ℕ) (f : ℕ → ℚ) :
    ((List.range n).map f).sum = ∑ y ∈ Finset.range n, f y := by
  induction n with
  | zero => simp
  | succ n ih => rw [List.range_succ, Finset.sum_range_succ]; simp [ih]

theorem feeDistributionTableNums_getD_sum :
    ((List.range 50).map (fun y => feeDistributionTableNums.getD y 0)).sum =
      100000 := by decide

theorem list_sum_map_range_nat (n : ℕ) (f : ℕ → ℕ) :
    ((List.range n).map f).sum = ∑ y ∈ Finset.range n, f y := by
  induction n with
  | zero => simp
  | succ n ih => rw [List.range_succ, Finset.sum_range_succ]; simp [ih]

/-- The distribution table sums to exactly 1 (`test_distribution_table_sum`). -/
theorem feeDistributionTable_sum :
    ∑ y ∈ Finset.range 50, feeDistributionTable y = 1 := by
  unfold feeDistributionTable
  rw [← Finset.sum_div, ← Nat.cast_sum, ← list_sum_map_range_nat,
    feeDistributionTableNums_getD_sum]
  norm_num

theorem totalCredited_nonneg (P : ℕ) : 0 ≤ totalCredited P :=
  Finset.sum_nonneg fun y _ => by
    have := epochFeeShareDec_nonneg P y
    omega

theorem totalCredited_le (P : ℕ) : totalCredited P ≤ (P : ℤ) := by
  have h : ((totalCredited P : ℤ) : ℚ) ≤ (P : ℚ) := by
    unfold totalCredited
    push_cast
    calc ∑ y ∈ Finset.range 50, (20 : ℚ) * (epochFeeShareDec P y : ℚ)
        ≤ ∑ y ∈ Finset.range 50, (P : ℚ) * feeDistributionTable y := by
          apply Finset.sum_le_sum
          intro y _
          have hf : ((epochFeeShareDec P y : ℤ) : ℚ) ≤
              (P : ℚ) * feeDistributionTable y / 20 :=
            Int.floor_le _
          linarith
      _ = (P : ℚ) * ∑ y ∈ Finset.range 50, feeDistributionTable y := by
          rw [Finset.mul_sum]
      _ = (P : ℚ) := by rw [feeDistributionTable_sum, mul_one]
  exact_mod_cast h

/-- Closed form of a successful run of the dash-abci distribution: the batch
is the 1000 per-epoch updates (in loop order) followed by the pool
write-back of `P - totalCredited P`. -/
theorem distribute_ok (P i : ℕ) (credits : ℕ → Option ℕ)
    (hP : P ≤ U64_MAX) (hP0 : P ≠ 0)
    (hinit : ∀ y < 50, ∀ k < 20, (credits (i + y * 20 + k)).isSome) :
    distributeStorageFeeDistributionPoolToEpochsOperations P i credits =
      .ok ((List.range 50).flatMap (yearOps P i credits) ++
        [GroveOp.updateStoragePool ((P : ℤ) - totalCredited P).toNat]) := by
  unfold distributeStorageFeeDistributionPoolToEpochsOperations
  rw [if_neg (by exact_mod_cast hP0)]
  rw [distributeYears_eq P i credits (List.range 50) (P : ℚ)
    (fun y _ => ⟨epochFeeShareDec_nonneg P y, epochFeeShareDec_le P y hP⟩)
    (fun y hy k hk => hinit y (List.mem_range.mp hy) k hk)]
  have hsum : ((List.range 50).map
      (fun y => ((20 * epochFeeShareDec P y : ℤ) : ℚ))).sum =
      ((totalCredited P : ℤ) : ℚ) := by
    rw [list_sum_map_range]
    unfold totalCredited
    push_cast
    rfl
  have hbuf : (P : ℚ) - ((List.range 50).map
      (fun y => ((20 * epochFeeShareDec P y : ℤ) : ℚ))).sum =
      (((P : ℤ) - totalCredited P : ℤ) : ℚ) := by
    rw [hsum]; push_cast; ring
  rw [hbuf]
  have hr : ratToU64 (((P : ℤ) - totalCredited P : ℤ) : ℚ) =
      some ((P : ℤ) - totalCredited P).toNat := by
    unfold ratToU64
    rw [Int.floor_intCast]
    have h1 : 0 ≤ (P : ℤ) - totalCredited P := by
      have := totalCredited_le P; omega
    have h2 : (P : ℤ) - totalCredited P ≤ (U64_MAX : ℤ) := by
      have := totalCredited_nonneg P
      have : (P : ℤ) ≤ (U64_MAX : ℤ) := by exact_mod_cast hP
      omega
    rw [if_pos ⟨by exact_mod_cast h1, h2⟩]
  dsimp only
  rw [hr]

/-! ### Applying the batch -/

theorem applyOps_append (s : PoolsState) (l₁ l₂ : List GroveOp) :
    applyOps s (l₁ ++ l₂) = applyOps (applyOps s l₁) l₂ := by
  simp [applyOps]

theorem applyOps_credits_of_forall_ne (s : PoolsState) (j : ℕ)
    (ops : List GroveOp)
    (h : ∀ idx v, GroveOp.updateEpochStorageFee idx v ∈ ops → idx ≠ j) :
    (applyOps s ops).credits j = s.credits j := by
  induction ops generalizing s with
  | nil => rfl
  | cons op ops ih =>
      rw [applyOps, List.foldl_cons, ← applyOps]
      rw [ih _ (fun idx v hv => h idx v (List.mem_cons_of_mem _ hv))]
      cases op with
      | updateEpochStorageFee idx v =>
          have hne : j ≠ idx := Ne.symm (h idx v (List.mem_cons_self _ _))
          simp [applyOp, hne]
      | updateStoragePool v => rfl

theorem applyOps_pool_of_forall_ne (s : PoolsState) (ops : List GroveOp)
    (h : ∀ v, GroveOp.updateStoragePool v ∉ ops) :
    (applyOps s ops).pool = s.pool := by
  induction ops generalizing s with
  | nil => rfl
  | cons op ops ih =>
      rw [applyOps, List.foldl_cons, ← applyOps]
      rw [ih _ (fun v hv => h v (List.mem_cons_of_mem _ hv))]
      cases op with
      | updateEpochStorageFee idx v => rfl
      | updateStoragePool v => exact absurd (List.mem_cons_self _ _) (h v)

theorem mem_yearOps (P i : ℕ) (credits : ℕ → Option ℕ) (y : ℕ)
    (op : GroveOp) (hop : op ∈ yearOps P i credits y) :
    ∃ k < 20, op = GroveOp.updateEpochStorageFee (i + y * 20 + k)
      (u64add ((credits (i + y * 20 + k)).getD 0)
        (epochFeeShareDec P y).toNat) := by
  unfold yearOps at hop
  obtain ⟨k, hk, rfl⟩ := List.mem_map.mp hop
  exact ⟨k, List.mem_range.mp hk, rfl⟩

theorem yearOps_index_ne (y y' k k' : ℕ) (hk : k < 20) (hk' : k' < 20)
    (hy : y ≠ y') (i : ℕ) : i + y * 20 + k ≠ i + y' * 20 + k' := by omega

/-- Looking up one epoch after applying a single year's update block. -/
theorem applyOps_yearOps_lookup (P i : ℕ) (credits : ℕ → Option ℕ)
    (s : PoolsState) (y k : ℕ) (hk : k < 20) :
    (applyOps s (yearOps P i credits y)).credits (i + y * 20 + k) =
      some (u64add ((credits (i + y * 20 + k)).getD 0)
        (epochFeeShareDec P y).toNat) := by
  unfold yearOps
  have key : ∀ (ks : List ℕ) (s : PoolsState), ks.Nodup → k ∈ ks →
      (∀ k' ∈ ks, k' < 20) →
      (applyOps s (ks.map (fun k => GroveOp.updateEpochStorageFee
        (i + y * 20 + k) (u64add ((credits (i + y * 20 + k)).getD 0)
          (epochFeeShareDec P y).toNat)))).credits (i + y * 20 + k) =
      some (u64add ((credits (i + y * 20 + k)).getD 0)
        (epochFeeShareDec P y).toNat) := by
    intro ks
    induction ks with
    | nil => intro s _ hmem _; exact absurd hmem (List.not_mem_nil k)
    | cons k₀ ks ih =>
        intro s hnd hmem hlt
        rw [List.map_cons, applyOps, List.foldl_cons, ← applyOps]
        rcases List.mem_cons.mp hmem with rfl | hmem'
        · rw [applyOps_credits_of_forall_ne]
          · simp [applyOp]
          · intro idx v hv
            obtain ⟨k', hk', heq⟩ := List.mem_map.mp hv
            injection heq with h1 h2
            have hkk : k' ≠ k := fun h => (List.nodup_cons.mp hnd).1 (h ▸ hk')
            omega
        · exact ih _ (List.nodup_cons.mp hnd).2 hmem'
            (fun k' hk' => hlt k' (List.mem_cons_of_mem _ hk'))
  exact key (List.range 20) s (List.nodup_range 20) (List.mem_range.mpr hk)
    (fun k' hk' => List.mem_range.mp hk')

/-- Looking up one epoch after applying the whole 50-year batch. -/
theorem applyOps_flatMap_lookup (P i : ℕ) (credits : ℕ → Option ℕ)
    (s : PoolsState) (ys : List ℕ) (hnd : ys.Nodup) (y : ℕ) (hy : y ∈ ys)
    (k : ℕ) (hk : k < 20) :
    (applyOps s (ys.flatMap (yearOps P i credits))).credits (i + y * 20 + k) =
      some (u64add ((credits (i + y * 20 + k)).getD 0)
        (epochFeeShareDec P y).toNat) := by
  induction ys generalizing s with
  | nil => exact absurd hy (List.not_mem_nil y)
  | cons y₀ ys ih =>
      rw [List.flatMap_cons, applyOps_append]
      rcases List.mem_cons.mp hy with rfl | hy'
      · rw [applyOps_credits_of_forall_ne]
        · exact applyOps_yearOps_lookup P i credits s y k hk
        · intro idx v hv
          obtain ⟨y', hy', hopv⟩ := List.mem_flatMap.mp hv
          obtain ⟨k', hk', heq⟩ := mem_yearOps P i credits y' _ hopv
          cases heq
          have hne : y' ≠ y := fun h => (List.nodup_cons.mp hnd).1 (h ▸ hy')
          omega
      · exact ih _ (List.nodup_cons.mp hnd).2 hy'

theorem flatMap_yearOps_no_pool_op (P i : ℕ) (credits : ℕ → Option ℕ)
    (ys : List ℕ) (v : ℕ) :
    GroveOp.updateStoragePool v ∉ ys.flatMap (yearOps P i credits) := by
  intro hv
  obtain ⟨y', _, hopv⟩ := List.mem_flatMap.mp hv
  obtain ⟨k', _, heq⟩ := mem_yearOps P i credits y' _ hopv
  exact GroveOp.noConfusion heq

theorem u64add_eq_add (a b : ℕ) (h : a + b ≤ U64_MAX) : u64add a b = a + b := by
  unfold u64add
  exact Nat.mod_eq_of_lt (by omega)

/-- The floored epoch share in pure natural-number arithmetic. -/
theorem epochFeeShareDec_eq_nat (P y : ℕ) :
    epochFeeShareDec P y =
      ((P * feeDistributionTableNums.getD y 0) / 2000000 : ℕ) := by
  unfold epochFeeShareDec feeDistributionTable
  have h : (P : ℚ) * ((feeDistributionTableNums.getD y 0 : ℚ) / 100000) / 20 =
      (((P * feeDistributionTableNums.getD y 0 : ℕ) : ℤ) : ℚ) /
        ((2000000 : ℕ) : ℚ) := by
    push_cast
    ring
  rw [h, Rat.floor_intCast_div_natCast, Int.ofNat_tdiv]
  rw [Int.tdiv_eq_ediv (by positivity) (by norm_num)]

theorem totalCredited_eq_nat (P : ℕ) :
    totalCredited P =
      ((∑ y ∈ Finset.range 50,
        20 * ((P * feeDistributionTableNums.getD y 0) / 2000000) : ℕ) : ℤ) := by
  unfold totalCredited
  rw [Nat.cast_sum]
  refine Finset.sum_congr rfl fun y _ => ?_
  rw [epochFeeShareDec_eq_nat]
  push_cast
  ring

/-- **C1.**  For every pool balance `P > 0` and current epoch index `i` with
the 1000 epoch subtrees `i..i+999` initialized, the storage-fee distribution
succeeds, and applying its batch adds, for each `year < 50` and `k < 20`,
exactly `⌊(P * FEE_DISTRIBUTION_TABLE[year]) / 20⌋` credits to target epoch
`i + year*20 + k`, and writes back to the pool exactly `P` minus the sum of
all 1000 credited epoch shares, a value that is `≥ 0`; with `P = 0` the
distribution pushes no store operation at all. -/
theorem C1_storage_distribution_correct (P i : ℕ) (s : PoolsState)
    (hP0 : 0 < P) (hP : P ≤ U64_MAX)
    (hinit : ∀ y < 50, ∀ k < 20, (s.credits (i + y * 20 + k)).isSome)
    (hnoover : ∀ y < 50, ∀ k < 20,
      (s.credits (i + y * 20 + k)).getD 0 + (epochFeeShareDec P y).toNat ≤
        U64_MAX) :
    ∃ ops,
      distributeStorageFeeDistributionPoolToEpochsOperations P i s.credits =
        .ok ops ∧
      (∀ y < 50, ∀ k < 20,
        (applyOps s ops).credits (i + y * 20 + k) =
          some ((s.credits (i + y * 20 + k)).getD 0 +
            (epochFeeShareDec P y).toNat)) ∧
      ((applyOps s ops).pool : ℤ) = (P : ℤ) - totalCredited P ∧
      0 ≤ (P : ℤ) - totalCredited P ∧
      (∀ credits₀ : ℕ → Option ℕ,
        distributeStorageFeeDistributionPoolToEpochsOperations 0 i credits₀ =
          .ok []) := by
  refine ⟨_, distribute_ok P i s.credits hP (Nat.pos_iff_ne_zero.mp hP0) hinit,
    ?_, ?_, ?_, ?_⟩
  · intro y hy k hk
    rw [applyOps_append]
    have hcr : (applyOps (applyOps s ((List.range 50).flatMap
        (yearOps P i s.credits)))
        [GroveOp.updateStoragePool ((P : ℤ) - totalCredited P).toNat]).credits =
        (applyOps s ((List.range 50).flatMap (yearOps P i s.credits))).credits := by
      simp [applyOps, applyOp]
    rw [hcr]
    rw [applyOps_flatMap_lookup P i s.credits s (List.range 50)
      (List.nodup_range 50) y (List.mem_range.mpr hy) k hk]
    rw [u64add_eq_add _ _ (hnoover y hy k hk)]
  · rw [applyOps_append]
    have hp : (applyOps (applyOps s ((List.range 50).flatMap
        (yearOps P i s.credits)))
        [GroveOp.updateStoragePool ((P : ℤ) - totalCredited P).toNat]).pool =
        ((P : ℤ) - totalCredited P).toNat := by
      simp [applyOps, applyOp]
    rw [hp]
    exact Int.toNat_of_nonneg (by have := totalCredited_le P; omega)
  · have := totalCredited_le P; omega
  · intro credits₀
    simp [distributeStorageFeeDistributionPoolToEpochsOperations]

/-- Witness for C1 at `P = 1`, `i = 0`, all epoch items present with value 0. -/
theorem C1_storage_distribution_correct_witness :
    ∃ ops,
      distributeStorageFeeDistributionPoolToEpochsOperations 1 0
        (PoolsState.credits ⟨fun _ => some 0, 1⟩) = .ok ops ∧
      (∀ y < 50, ∀ k < 20,
        (applyOps ⟨fun _ => some 0, 1⟩ ops).credits (0 + y * 20 + k) =
          some (((PoolsState.credits ⟨fun _ => some 0, 1⟩) (0 + y * 20 + k)).getD 0 +
            (epochFeeShareDec 1 y).toNat)) ∧
      ((applyOps ⟨fun _ => some 0, 1⟩ ops).pool : ℤ) =
        (1 : ℤ) - totalCredited 1 ∧
      0 ≤ (1 : ℤ) - totalCredited 1 ∧
      (∀ credits₀ : ℕ → Option ℕ,
        distributeStorageFeeDistributionPoolToEpochsOperations 0 0 credits₀ =
          .ok []) :=
  C1_storage_distribution_correct 1 0 ⟨fun _ => some 0, 1⟩ (by norm_num)
    (by norm_num [U64_MAX])
    (fun y _ k _ => rfl)
    (fun y _ k _ => by
      rw [epochFeeShareDec_eq_nat]
      have hle := feeDistributionTableNums_getD_le y
      have h0 : 1 * feeDistributionTableNums.getD y 0 / 2000000 = 0 :=
        Nat.div_eq_of_lt (by omega)
      rw [h0]
      simp)

theorem applyOps_snoc_pool (s : PoolsState) (L : List GroveOp) (v : ℕ) :
    (applyOps s (L ++ [GroveOp.updateStoragePool v])).pool = v := by
  rw [applyOps_append]; rfl

theorem totalCredited_u64max :
    totalCredited U64_MAX = 18446744073709551100 := by
  rw [totalCredited_eq_nat]
  have h : (∑ y ∈ Finset.range 50,
      20 * ((U64_MAX * feeDistributionTableNums.getD y 0) / 2000000)) =
      18446744073709551100 := by
    rw [← list_sum_map_range_nat]
    decide
  rw [h]
  rfl

/-- **C8, counterexample.**  Distributing a pool of exactly `P = u64::MAX`
from epoch index 0 over zero-initialized epochs completes, but the residue
written back to the pool is `515`, not `0` as claimed. -/
theorem C8_counterexample_residue_not_zero :
    ∃ ops,
      distributeStorageFeeDistributionPoolToEpochsOperations U64_MAX 0
        (fun _ => some 0) = .ok ops ∧
      (applyOps ⟨fun _ => some 0, U64_MAX⟩ ops).pool = 515 ∧
      (515 : ℕ) ≠ 0 := by
  refine ⟨_, distribute_ok U64_MAX 0 (fun _ => some 0) le_rfl
    (by norm_num [U64_MAX]) (fun y _ k _ => rfl), ?_, by norm_num⟩
  rw [applyOps_snoc_pool]
  rw [totalCredited_u64max]
  norm_num [U64_MAX]
  decide

/-- **C8, amended.**  Distributing a pool balance of exactly `P = u64::MAX`
starting at epoch index 0 completes without reporting any overflow error, and
the residue written back to the pool is exactly `515`
(= `P` minus the 1000 floored epoch shares). -/
theorem C8_amended_distribution_u64max :
    ∃ ops,
      distributeStorageFeeDistributionPoolToEpochsOperations U64_MAX 0
        (fun _ => some 0) = .ok ops ∧
      (applyOps ⟨fun _ => some 0, U64_MAX⟩ ops).pool = 515 ∧
      (515 : ℤ) = (U64_MAX : ℤ) - totalCredited U64_MAX := by
  refine ⟨_, distribute_ok U64_MAX 0 (fun _ => some 0) le_rfl
    (by norm_num [U64_MAX]) (fun y _ k _ => rfl), ?_, ?_⟩
  · rw [applyOps_snoc_pool, totalCredited_u64max]
    norm_num [U64_MAX]
    decide
  · rw [totalCredited_u64max]
    norm_num [U64_MAX]

/-! ## Storage-fee distribution, drive generation
(src/drive/src/fee/pools/storage_fee_distribution_pool/mod.rs,
`StorageFeeDistributionPool::distribute`)

In this generation the pool item is an `i64` (`value`/`update`, little-endian)
and each epoch's storage fee is a `Decimal` item (read through
`EpochPool::get_storage_fee`, written back in place through
`EpochPool::update_storage_fee` inside the loop, see
src/drive/src/drive/fee_pools/epoch/credit_distribution_pools.rs for the
`Decimal` epoch item accessor).  The epoch share `year_fee_share / 20` is NOT
floored here.  This generation reads the distribution table from
`super::constants`, i.e. src/drive/src/fee/pools/constants.rs, whose last
entry is the literal `0.0012500000000004` (not the spec's `0.00125`). -/

/-- The 50 ratios of `FEE_DISTRIBUTION_TABLE` in
src/drive/src/fee/pools/constants.rs, as integer numerators at scale
`10^16`: the first 49 literals are the spec values; the last is
`0.0012500000000004`, so the entries sum to `1 + 4/10^16`. -/
def driveFeeDistributionTableNums : List ℕ :=
  [500000000000000, 480000000000000, 460000000000000, 440000000000000, 420000000000000,
   400000000000000, 385000000000000, 370000000000000, 355000000000000, 340000000000000,
   325000000000000, 310000000000000, 295000000000000, 285000000000000, 275000000000000,
   265000000000000, 255000000000000, 245000000000000, 235000000000000, 225000000000000,
   215000000000000, 205000000000000, 195000000000000, 187500000000000, 180000000000000,
   172500000000000, 165000000000000, 157500000000000, 150000000000000, 142500000000000,
   135000000000000, 127500000000000, 120000000000000, 112500000000000, 105000000000000,
   97500000000000, 90000000000000, 82500000000000, 75000000000000, 67500000000000,
   60000000000000, 52500000000000, 47500000000000, 42500000000000, 37500000000000,
   32500000000000, 27500000000000, 22500000000000, 17500000000000, 12500000000004]

/-- `constants::FEE_DISTRIBUTION_TABLE[year]` of the drive crate as an exact
rational. -/
def driveFeeDistributionTable (year : ℕ) : ℚ :=
  (driveFeeDistributionTableNums.getD year 0 : ℚ) / 10000000000000000

/-- `i64::MAX`. -/
def I64_MAX : ℤ := 9223372036854775807

/-- `i64::MIN`. -/
def I64_MIN : ℤ := -9223372036854775808

/-- Truncation of a decimal toward zero (`rust_decimal`'s integer part). -/
def ratTrunc (q : ℚ) : ℤ := q.num.tdiv (q.den : ℤ)

/-- `TryInto<i64>` for `Decimal`: the truncated value when it fits. -/
def ratToI64 (q : ℚ) : Option ℤ :=
  if I64_MIN ≤ ratTrunc q ∧ ratTrunc q ≤ I64_MAX then some (ratTrunc q)
  else none

/-- `EpochPool::get_storage_fee`: the epoch's `Decimal` item, or grovedb's
path-not-found error when the epoch subtree is absent. -/
def getStorageFeeDec (credits : ℕ → Option ℚ) (index : ℕ) :
    Except Error ℚ :=
  match credits index with
  | some v => .ok v
  | none => .error (.groveDB .pathNotFound)

/-- The inner loop of `StorageFeeDistributionPool::distribute`: reads each
epoch's `Decimal` storage fee, writes back `storage_fee + epoch_fee_share` in
place, and withdraws the share from the buffer. -/
def poolDistributeEpochs (epochFeeShare : ℚ) (start : ℕ) :
    List ℕ → (ℕ → Option ℚ) → ℚ → Except Error ((ℕ → Option ℚ) × ℚ)
  | [], credits, buffer => .ok (credits, buffer)
  | k :: ks, credits, buffer =>
      match getStorageFeeDec credits (start + k) with
      | .error e => .error e
      | .ok storageFee =>
          poolDistributeEpochs epochFeeShare start ks
            (fun j => if j = start + k then some (storageFee + epochFeeShare)
              else credits j)
            (buffer - epochFeeShare)

/-- The outer loop of `StorageFeeDistributionPool::distribute`:
`year_fee_share = P * FEE_DISTRIBUTION_TABLE[year]`,
`epoch_fee_share = year_fee_share / 20` (no flooring). -/
def poolDistributeYears (P : ℚ) (epochIndex : ℕ) :
    List ℕ → (ℕ → Option ℚ) → ℚ → Except Error ((ℕ → Option ℚ) × ℚ)
  | [], credits, buffer => .ok (credits, buffer)
  | year :: years, credits, buffer =>
      match poolDistributeEpochs (P * driveFeeDistributionTable year / 20)
        (epochIndex + year * 20) (List.range 20) credits buffer with
      | .error e => .error e
      | .ok (credits', buffer') =>
          poolDistributeYears P epochIndex years credits' buffer'

/-- `StorageFeeDistributionPool::distribute`: reads the `i64` pool value,
returns unchanged when zero, otherwise runs 50 years × 20 epochs and writes
the remaining buffer back through `TryInto<i64>`. -/
def storageFeeDistributionPoolDistribute (pool : ℤ) (epochIndex : ℕ)
    (credits : ℕ → Option ℚ) : Except Error ((ℕ → Option ℚ) × ℤ) :=
  if (pool : ℚ) = 0 then .ok (credits, pool)
  else
    match poolDistributeYears (pool : ℚ) epochIndex (List.range 50) credits
      (pool : ℚ) with
    | .error e => .error e
    | .ok (credits', buffer) =>
        match ratToI64 buffer with
        | none => .error (.fee (.corruptedStorageFeePoolInvalidItemLength
            "fee pools storage fee pool is not i64"))
        | some v => .ok (credits', v)

theorem poolDistributeEpochs_eq (share : ℚ) (start : ℕ) (ks : List ℕ)
    (credits : ℕ → Option ℚ) (buffer : ℚ) (hnd : ks.Nodup)
    (h : ∀ k ∈ ks, (credits (start + k)).isSome) :
    ∃ credits',
      poolDistributeEpochs share start ks credits buffer =
        .ok (credits', buffer - ks.length * share) ∧
      (∀ k ∈ ks, credits' (start + k) =
        some ((credits (start + k)).getD 0 + share)) ∧
      (∀ j, (∀ k ∈ ks, j ≠ start + k) → credits' j = credits j) := by
  induction ks generalizing credits buffer with
  | nil => exact ⟨credits, by simp [poolDistributeEpochs], by simp, fun j _ => rfl⟩
  | cons k₀ ks ih =>
      obtain ⟨v, hv⟩ := Option.isSome_iff_exists.mp
        (h k₀ (List.mem_cons_self _ _))
      set credits₁ : ℕ → Option ℚ :=
        fun j => if j = start + k₀ then some (v + share) else credits j with hc₁
      have hsome : ∀ k ∈ ks, (credits₁ (start + k)).isSome := by
        intro k hk
        have hkk : k ≠ k₀ := fun hkk => (List.nodup_cons.mp hnd).1 (hkk ▸ hk)
        simp only [hc₁]
        rw [if_neg (by omega)]
        exact h k (List.mem_cons_of_mem _ hk)
      obtain ⟨credits', heq, hmem, hout⟩ :=
        ih credits₁ (buffer - share) (List.nodup_cons.mp hnd).2 hsome
      refine ⟨credits', ?_, ?_, ?_⟩
      · rw [poolDistributeEpochs]
        simp only [getStorageFeeDec, hv]
        rw [← hc₁, heq]
        congr 2
        push_cast [List.length_cons]
        ring
      · intro k hk
        rcases List.mem_cons.mp hk with rfl | hk'
        · rw [hout (start + k) (by
            intro k' hk'
            have : k' ≠ k := fun hkk =>
              (List.nodup_cons.mp hnd).1 (hkk ▸ hk')
            omega)]
          simp [hc₁, hv]
        · rw [hmem k hk']
          have hkk : k ≠ k₀ := fun hkk =>
            (List.nodup_cons.mp hnd).1 (hkk ▸ hk')
          simp only [hc₁]
          rw [if_neg (by omega)]
      · intro j hj
        rw [hout j (fun k hk => hj k (List.mem_cons_of_mem _ hk))]
        simp only [hc₁]
        rw [if_neg (hj k₀ (List.mem_cons_self _ _))]

theorem poolDistributeYears_eq (P : ℚ) (i : ℕ) (ys : List ℕ)
    (credits : ℕ → Option ℚ) (buffer : ℚ) (hnd : ys.Nodup)
    (hinit : ∀ y ∈ ys, ∀ k < 20, (credits (i + y * 20 + k)).isSome) :
    ∃ credits',
      poolDistributeYears P i ys credits buffer =
        .ok (credits',
          buffer - (ys.map (fun y => 20 * (P * driveFeeDistributionTable y / 20))).sum) ∧
      (∀ y ∈ ys, ∀ k < 20, credits' (i + y * 20 + k) =
        some ((credits (i + y * 20 + k)).getD 0 +
          P * driveFeeDistributionTable y / 20)) ∧
      (∀ j, (∀ y ∈ ys, ∀ k < 20, j ≠ i + y * 20 + k) →
        credits' j = credits j) := by
  induction ys generalizing credits buffer with
  | nil =>
      exact ⟨credits, by simp [poolDistributeYears], by simp, fun j _ => rfl⟩
  | cons y₀ ys ih =>
      obtain ⟨credits₁, heq₁, hmem₁, hout₁⟩ :=
        poolDistributeEpochs_eq (P * driveFeeDistributionTable y₀ / 20)
          (i + y₀ * 20) (List.range 20) credits buffer (List.nodup_range 20)
          (fun k hk => hinit y₀ (List.mem_cons_self _ _) k (List.mem_range.mp hk))
      have hinit₁ : ∀ y ∈ ys, ∀ k < 20, (credits₁ (i + y * 20 + k)).isSome := by
        intro y hy k hk
        rw [hout₁ (i + y * 20 + k) (by
          intro k' hk'
          have hne : y ≠ y₀ := fun h => (List.nodup_cons.mp hnd).1 (h ▸ hy)
          have hk'20 := List.mem_range.mp hk'
          omega)]
        exact hinit y (List.mem_cons_of_mem _ hy) k hk
      obtain ⟨credits₂, heq₂, hmem₂, hout₂⟩ :=
        ih credits₁ (buffer - (List.range 20).length *
          (P * driveFeeDistributionTable y₀ / 20)) (List.nodup_cons.mp hnd).2 hinit₁
      refine ⟨credits₂, ?_, ?_, ?_⟩
      · rw [poolDistributeYears, heq₁]
        dsimp only
        rw [heq₂]
        congr 2
        simp only [List.map_cons, List.sum_cons, List.length_range]
        push_cast
        ring
      · intro y hy k hk
        rcases List.mem_cons.mp hy with rfl | hy'
        · rw [hout₂ (i + y * 20 + k) (by
            intro y' hy' k' hk'
            have hne : y' ≠ y := fun h =>
              (List.nodup_cons.mp hnd).1 (h ▸ hy')
            omega)]
          exact hmem₁ k (List.mem_range.mpr hk)
        · rw [hmem₂ y hy' k hk]
          rw [hout₁ (i + y * 20 + k) (by
            intro k' hk'
            have hne : y ≠ y₀ := fun h => (List.nodup_cons.mp hnd).1 (h ▸ hy')
            have hk'20 := List.mem_range.mp hk'
            omega)]
      · intro j hj
        rw [hout₂ j (fun y hy k hk =>
          hj y (List.mem_cons_of_mem _ hy) k hk)]
        exact hout₁ j (fun k' hk' =>
          hj y₀ (List.mem_cons_self _ _) k' (List.mem_range.mp hk'))

theorem driveFeeDistributionTableNums_getD_sum :
    ((List.range 50).map
      (fun y => driveFeeDistributionTableNums.getD y 0)).sum =
      10000000000000004 := by decide

/-- The drive crate's table sums to `1 + 4/10^16`, not 1, because of its
last entry. -/
theorem driveFeeDistributionTable_sum :
    ∑ y ∈ Finset.range 50, driveFeeDistributionTable y =
      10000000000000004 / 10000000000000000 := by
  unfold driveFeeDistributionTable
  rw [← Finset.sum_div, ← Nat.cast_sum, ← list_sum_map_range_nat,
    driveFeeDistributionTableNums_getD_sum]
  norm_num

theorem drivePoolShare_sum (P : ℚ) :
    ((List.range 50).map
      (fun y => 20 * (P * driveFeeDistributionTable y / 20))).sum =
      P * (10000000000000004 / 10000000000000000) := by
  rw [list_sum_map_range]
  have h : ∀ y, 20 * (P * driveFeeDistributionTable y / 20) =
      P * driveFeeDistributionTable y := fun y => by ring
  simp_rw [h]
  rw [← Finset.mul_sum, driveFeeDistributionTable_sum]

theorem driveFeeDistributionTable_eval (y n : ℕ)
    (h : driveFeeDistributionTableNums.getD y 0 = n) :
    driveFeeDistributionTable y = (n : ℚ) / 10000000000000000 := by
  unfold driveFeeDistributionTable
  rw [h]

/-- `Int.tdiv` truncates toward zero, so a decimal strictly between `-1`
and `1` truncates to 0. -/
theorem ratTrunc_eq_zero (q : ℚ) (h1 : -1 < q) (h2 : q < 1) :
    ratTrunc q = 0 := by
  unfold ratTrunc
  have hd : (0 : ℚ) < (q.den : ℚ) := by exact_mod_cast q.den_pos
  have hq := Rat.num_div_den q
  have hlt : (q.num : ℚ) < (q.den : ℚ) := by
    rw [← hq] at h2
    exact (div_lt_one hd).mp h2
  have hgt : -((q.den : ℚ)) < (q.num : ℚ) := by
    rw [← hq] at h1
    have := (lt_div_iff₀ hd).mp h1
    linarith
  have hltZ : q.num < (q.den : ℤ) := by exact_mod_cast hlt
  have hgtZ : -((q.den : ℤ)) < q.num := by exact_mod_cast hgt
  rcases le_or_lt 0 q.num with hn | hn
  · exact Int.tdiv_eq_zero_of_lt hn hltZ
  · rw [show q.num = -(-q.num) from (neg_neg _).symm, Int.neg_tdiv,
      Int.tdiv_eq_zero_of_lt (by omega) (by omega), neg_zero]

theorem ratToI64_of_small (q : ℚ) (h1 : -1 < q) (h2 : q < 1) :
    ratToI64 q = some 0 := by
  unfold ratToI64
  rw [ratTrunc_eq_zero q h1 h2]
  norm_num [I64_MIN, I64_MAX]

/-- **C3, counterexample.**  The drive-generation `distribute` imports the
table of src/drive/src/fee/pools/constants.rs, whose last entry is
`0.0012500000000004`: distributing `P = 1000` from epoch index 42 credits
each of the final 20 epochs `0.06250000000002`, not the claim's `0.0625`
(shown at target epoch `42 + 49*20 + 0`). -/
theorem C3_counterexample_final_epoch_credit :
    ∃ credits₁ pool₁,
      storageFeeDistributionPoolDistribute 1000 42 (fun _ => some 0) =
        .ok (credits₁, pool₁) ∧
      credits₁ (42 + 49 * 20 + 0) =
        some (50 * driveFeeDistributionTable 49) ∧
      50 * driveFeeDistributionTable 49 ≠ 625 / 10000 := by
  have hcast : (((1000 : ℤ) : ℚ)) = (1000 : ℚ) := by norm_num
  obtain ⟨c₁, heq₁, hmem₁, hout₁⟩ :=
    poolDistributeYears_eq 1000 42 (List.range 50) (fun _ => some 0) 1000
      (List.nodup_range 50) (fun y _ k _ => rfl)
  have hto : ratToI64 ((1000 : ℚ) - ((List.range 50).map
      (fun y => 20 * ((1000 : ℚ) * driveFeeDistributionTable y / 20))).sum) =
      some 0 := by
    rw [drivePoolShare_sum]
    exact ratToI64_of_small _ (by norm_num) (by norm_num)
  refine ⟨c₁, 0, ?_, ?_, ?_⟩
  · unfold storageFeeDistributionPoolDistribute
    rw [if_neg (by norm_num), hcast, heq₁]
    dsimp only
    rw [hto]
  · rw [hmem₁ 49 (List.mem_range.mpr (by norm_num)) 0 (by norm_num)]
    simp only [Option.getD_some, Option.some.injEq]
    ring
  · rw [driveFeeDistributionTable_eval 49 12500000000004 rfl]
    norm_num

/-- **C3, amended.**  Drive-generation distribution of a pool of exactly
`P = 1000` starting at epoch index 42: each epoch of year `y` is credited
exactly `50 * FEE_DISTRIBUTION_TABLE[y]` — `2.5000` for each of the first 20
target epochs, `2.4000` for each of the next 20, and so on down to
`0.06250000000002` for each of the final 20 (the source table's last entry
is `0.0012500000000004`); the pool residue written back is exactly 0 (the
buffer ends at `-4/10^13`, which the `i64` conversion truncates to 0);
distributing another `P = 1000` afterwards exactly doubles every epoch's
credited amount. -/
theorem C3_amended_drive_distribution_P1000_epoch42 :
    ∃ credits₁,
      storageFeeDistributionPoolDistribute 1000 42 (fun _ => some 0) =
        .ok (credits₁, 0) ∧
      (∀ (y : Fin 50) (k : Fin 20),
        credits₁ (42 + (y : ℕ) * 20 + (k : ℕ)) =
          some (50 * driveFeeDistributionTable (y : ℕ))) ∧
      50 * driveFeeDistributionTable 0 = 5 / 2 ∧
      50 * driveFeeDistributionTable 1 = 12 / 5 ∧
      50 * driveFeeDistributionTable 49 = 3125000000001 / 50000000000000 ∧
      ∃ credits₂,
        storageFeeDistributionPoolDistribute 1000 42 credits₁ =
          .ok (credits₂, 0) ∧
        ∀ (y : Fin 50) (k : Fin 20),
          credits₂ (42 + (y : ℕ) * 20 + (k : ℕ)) =
            some (2 * (50 * driveFeeDistributionTable (y : ℕ))) := by
  have hcast : (((1000 : ℤ) : ℚ)) = (1000 : ℚ) := by norm_num
  obtain ⟨c₁, heq₁, hmem₁, hout₁⟩ :=
    poolDistributeYears_eq 1000 42 (List.range 50) (fun _ => some 0) 1000
      (List.nodup_range 50) (fun y _ k _ => rfl)
  have hto : ratToI64 ((1000 : ℚ) - ((List.range 50).map
      (fun y => 20 * ((1000 : ℚ) * driveFeeDistributionTable y / 20))).sum) =
      some 0 := by
    rw [drivePoolShare_sum]
    exact ratToI64_of_small _ (by norm_num) (by norm_num)
  have hrun₁ : storageFeeDistributionPoolDistribute 1000 42 (fun _ => some 0) =
      .ok (c₁, 0) := by
    unfold storageFeeDistributionPoolDistribute
    rw [if_neg (by norm_num), hcast, heq₁]
    dsimp only
    rw [hto]
  have hval₁ : ∀ (y : Fin 50) (k : Fin 20),
      c₁ (42 + (y : ℕ) * 20 + (k : ℕ)) =
        some (50 * driveFeeDistributionTable (y : ℕ)) := by
    intro y k
    rw [hmem₁ (y : ℕ) (List.mem_range.mpr y.isLt) (k : ℕ) k.isLt]
    simp only [Option.getD_some, Option.some.injEq]
    ring
  have hsome₁ : ∀ y ∈ List.range 50, ∀ k < 20,
      (c₁ (42 + y * 20 + k)).isSome := by
    intro y hy k hk
    rw [hmem₁ y hy k hk]
    rfl
  obtain ⟨c₂, heq₂, hmem₂, hout₂⟩ :=
    poolDistributeYears_eq 1000 42 (List.range 50) c₁ 1000
      (List.nodup_range 50) hsome₁
  have hrun₂ : storageFeeDistributionPoolDistribute 1000 42 c₁ =
      .ok (c₂, 0) := by
    unfold storageFeeDistributionPoolDistribute
    rw [if_neg (by norm_num), hcast, heq₂]
    dsimp only
    rw [hto]
  refine ⟨c₁, hrun₁, hval₁, ?_, ?_, ?_, c₂, hrun₂, ?_⟩
  · rw [driveFeeDistributionTable_eval 0 500000000000000 rfl]
    norm_num
  · rw [driveFeeDistributionTable_eval 1 480000000000000 rfl]
    norm_num
  · rw [driveFeeDistributionTable_eval 49 12500000000004 rfl]
    norm_num
  · intro y k
    rw [hmem₂ (y : ℕ) (List.mem_range.mpr y.isLt) (k : ℕ) k.isLt]
    rw [hval₁ y k]
    simp only [Option.getD_some, Option.some.injEq]
    ring

/-! ## Store elements and big-endian `u64` items
(spec §3; src/drive/src/drive/genesis_time/mod.rs,
src/drive/src/drive/fee_pools/epochs/credit_distribution_pools.rs) -/

/-- A grovedb element: an item holding raw bytes, or a subtree. -/
inductive Element
  | item (bytes : List ℕ)
  | tree
  deriving DecidableEq, Repr

/-- `u64::to_be_bytes`. -/
def u64ToBeBytes (n : ℕ) : List ℕ :=
  [n / 256 ^ 7 % 256, n / 256 ^ 6 % 256, n / 256 ^ 5 % 256, n / 256 ^ 4 % 256,
   n / 256 ^ 3 % 256, n / 256 ^ 2 % 256, n / 256 % 256, n % 256]

/-- The `[u8; 8]` slice conversion (`item.as_slice().try_into()`) followed by
`u64::from_be_bytes`: `none` exactly when the item length is not 8. -/
def u64FromBeBytes : List ℕ → Option ℕ
  | [b7, b6, b5, b4, b3, b2, b1, b0] =>
      some (b7 * 256 ^ 7 + b6 * 256 ^ 6 + b5 * 256 ^ 5 + b4 * 256 ^ 4 +
        b3 * 256 ^ 3 + b2 * 256 ^ 2 + b1 * 256 + b0)
  | _ => none

theorem u64FromBeBytes_toBeBytes (n : ℕ) (h : n ≤ U64_MAX) :
    u64FromBeBytes (u64ToBeBytes n) = some n := by
  unfold u64ToBeBytes u64FromBeBytes
  simp only [Option.some.injEq]
  unfold U64_MAX at h
  omega

theorem u64FromBeBytes_eq_none_iff (bytes : List ℕ) :
    u64FromBeBytes bytes = none ↔ bytes.length ≠ 8 := by
  match bytes with
  | [] => simp [u64FromBeBytes]
  | [a] => simp [u64FromBeBytes]
  | [a, b] => simp [u64FromBeBytes]
  | [a, b, c] => simp [u64FromBeBytes]
  | [a, b, c, d] => simp [u64FromBeBytes]
  | [a, b, c, d, e] => simp [u64FromBeBytes]
  | [a, b, c, d, e, f] => simp [u64FromBeBytes]
  | [a, b, c, d, e, f, g] => simp [u64FromBeBytes]
  | [a, b, c, d, e, f, g, h] => simp [u64FromBeBytes]
  | a :: b :: c :: d :: e :: f :: g :: h :: i :: rest =>
      simp [u64FromBeBytes]

/-! ## Block lifecycle driver
(src/dash-abci/src/abci/handlers.rs; src/drive/src/drive/genesis_time/mod.rs)

The state a block callback can touch: whether the `Pools` root subtree exists,
the genesis-time item at `Pools/"g"`, the in-memory genesis-time cache
(`Drive::cache`), and the single-slot block execution context
(`Platform::block_execution_context`). -/

/-- `EpochInfo` (dash-abci `execution::epoch_change::epoch`). -/
structure EpochInfo where
  currentEpochIndex : ℕ
  isEpochChange : Bool
  deriving DecidableEq, Repr

/-- `BlockBeginRequest` (the fields the embedded handlers use). -/
structure BlockBeginRequest where
  blockHeight : ℕ
  blockTimeMs : ℕ
  previousBlockTimeMs : Option ℕ
  deriving DecidableEq, Repr

/-- `BlockExecutionContext`: block info (from the begin request) plus the
epoch info computed in `block_begin`. -/
structure BlockExecutionContext where
  blockHeight : ℕ
  blockTimeMs : ℕ
  previousBlockTimeMs : Option ℕ
  epochInfo : EpochInfo
  deriving DecidableEq, Repr

/-- The per-process platform state visible to the embedded handlers. -/
structure PlatformState where
  poolsExists : Bool
  genesisItem : Option Element
  cacheGenesisTimeMs : Option ℕ
  blockExecutionContext : Option BlockExecutionContext
  deriving DecidableEq, Repr

/-- `EPOCH_CHANGE_TIME` (src/drive/src/fee/pools/constants.rs). -/
def EPOCH_CHANGE_TIME : ℕ := 1576800000

/-- Modelled from the spec: `EpochInfo::calculate` lives in dash-abci's
`execution::epoch_change::epoch` module, which is not under src/ (only its
caller `block_begin` is).  Spec §4.4: floor-divide the offsets from genesis by
`EPOCH_CHANGE_TIME`; the change flag is set when the previous block time is
absent or falls in a different epoch; `BlockBeforeGenesis` when the block
time precedes genesis. -/
def EpochInfo.calculate (genesisTimeMs blockTimeMs : ℕ)
    (previousBlockTimeMs : Option ℕ) : Except Error EpochInfo :=
  if blockTimeMs < genesisTimeMs then
    .error (.execution .blockBeforeGenesis)
  else
    let currentEpochIndex := (blockTimeMs - genesisTimeMs) / EPOCH_CHANGE_TIME
    let isEpochChange :=
      match previousBlockTimeMs with
      | none => true
      | some prev =>
          decide ((prev - genesisTimeMs) / EPOCH_CHANGE_TIME ≠
            currentEpochIndex)
    .ok ⟨currentEpochIndex, isEpochChange⟩

/-- `grove.get` at `Pools/"g"`: path-not-found when the `Pools` subtree is
absent, path-key-not-found when the item is absent. -/
def groveGetGenesisItem (s : PlatformState) : Except GroveError Element :=
  if s.poolsExists = false then .error .pathNotFound
  else
    match s.genesisItem with
    | none => .error .pathKeyNotFound
    | some e => .ok e

/-- `Drive::fetch_genesis_time`
(src/drive/src/drive/genesis_time/mod.rs lines 29-57): the grove error
`PathKeyNotFound` is mapped to `Ok(None)` by the `or_else`, but the following
`if let Some(Element::Item(..))` sends `None` to its `else` branch, which
returns `CorruptedGenesisTimeNotItem`. -/
def fetchGenesisTime (s : PlatformState) : Except Error (Option ℕ) :=
  match (match groveGetGenesisItem s with
    | .ok e => Except.ok (some e)
    | .error .pathKeyNotFound => Except.ok none
    | .error e => Except.error e) with
  | .error e => .error (.groveDB e)
  | .ok element =>
      match element with
      | some (.item bytes) =>
          match u64FromBeBytes bytes with
          | some t => .ok (some t)
          | none => .error (.drive .corruptedGenesisTimeInvalidItemLength)
      | _ => .error (.drive .corruptedGenesisTimeNotItem)

/-- `Drive::get_genesis_time`: consult the cache first, otherwise fetch and
populate the cache on a hit.  The returned state carries the cache update. -/
def getGenesisTime (s : PlatformState) :
    Except Error (Option ℕ) × PlatformState :=
  match s.cacheGenesisTimeMs with
  | some t => (.ok (some t), s)
  | none =>
      match fetchGenesisTime s with
      | .error e => (.error e, s)
      | .ok (some t) => (.ok (some t), { s with cacheGenesisTimeMs := some t })
      | .ok none => (.ok none, s)

/-- `Drive::init_genesis`: set the cache, then apply
`update_genesis_time_operation` which inserts the big-endian `u64` item at
`Pools/"g"` (the operations module is not under src/; byte layout per spec
§3).  Inserting under a missing `Pools` subtree fails. -/
def initGenesis (t : ℕ) (s : PlatformState) :
    Except Error Unit × PlatformState :=
  let s₁ := { s with cacheGenesisTimeMs := some t }
  if s₁.poolsExists then
    (.ok (), { s₁ with genesisItem := some (.item (u64ToBeBytes t)) })
  else (.error (.groveDB .pathKeyNotFound), s₁)

/-- `TenderdashAbci::block_begin` for `Platform`
(src/dash-abci/src/abci/handlers.rs lines 50-81): at height 1 persist the
genesis time, otherwise read it (`DriveIncoherence` when the read yields
`None`); compute the epoch info; replace the execution-context slot. -/
def blockBegin (req : BlockBeginRequest) (s : PlatformState) :
    Except Error Unit × PlatformState :=
  let genesisStep : Except Error ℕ × PlatformState :=
    if req.blockHeight = 1 then
      match initGenesis req.blockTimeMs s with
      | (.error e, s₁) => (.error e, s₁)
      | (.ok _, s₁) => (.ok req.blockTimeMs, s₁)
    else
      match getGenesisTime s with
      | (.error e, s₁) => (.error e, s₁)
      | (.ok (some t), s₁) => (.ok t, s₁)
      | (.ok none, s₁) =>
          (.error (.execution (.driveIncoherence
            "the genesis time must be set")), s₁)
  match genesisStep with
  | (.error e, s₁) => (.error e, s₁)
  | (.ok genesisTime, s₁) =>
      match EpochInfo.calculate genesisTime req.blockTimeMs
        req.previousBlockTimeMs with
      | .error e => (.error e, s₁)
      | .ok epochInfo =>
          let ctx := BlockExecutionContext.mk req.blockHeight req.blockTimeMs
            req.previousBlockTimeMs epochInfo
          (.ok (), { s₁ with blockExecutionContext := some ctx })

/-- The result of `process_block_fees`. -/
structure DistributionInfo where
  masternodesPaidCount : ℕ
  paidEpochIndex : Option ℕ
  deriving DecidableEq, Repr

/-- `BlockEndResponse`. -/
structure BlockEndResponse where
  currentEpochIndex : ℕ
  isEpochChange : Bool
  masternodesPaidCount : ℕ
  paidEpochIndex : Option ℕ
  deriving DecidableEq, Repr

/-- `TenderdashAbci::block_end`
(src/dash-abci/src/abci/handlers.rs lines 83-117), parameterized by the fee
processing (`Platform::process_block_fees`, outside this file's claims): an
empty execution-context slot fails with `CorruptedCodeExecution` before any
fee processing runs. -/
def blockEnd
    (processBlockFees : BlockExecutionContext → PlatformState →
      Except Error (DistributionInfo × PlatformState))
    (s : PlatformState) : Except Error BlockEndResponse × PlatformState :=
  match s.blockExecutionContext with
  | none => (.error (.execution (.corruptedCodeExecution
      "block execution context must be set in block begin handler")), s)
  | some ctx =>
      match processBlockFees ctx s with
      | .error e => (.error e, s)
      | .ok (info, s₁) =>
          (.ok ⟨ctx.epochInfo.currentEpochIndex, ctx.epochInfo.isEpochChange,
            info.masternodesPaidCount, info.paidEpochIndex⟩, s₁)

/-- **C7.**  Whenever `block_end` runs while the execution-context slot is
empty, it returns `CorruptedCodeExecution` and leaves the store untouched,
whatever the fee processing would have done. -/
theorem C7_block_end_empty_context
    (processBlockFees : BlockExecutionContext → PlatformState →
      Except Error (DistributionInfo × PlatformState))
    (s : PlatformState) (h : s.blockExecutionContext = none) :
    blockEnd processBlockFees s =
      (.error (.execution (.corruptedCodeExecution
        "block execution context must be set in block begin handler")), s) := by
  unfold blockEnd
  rw [h]

/-- Witness for C7 at a concrete empty-slot state and a concrete fee
processor. -/
theorem C7_block_end_empty_context_witness :
    blockEnd (fun _ s => .ok (⟨0, none⟩, s)) ⟨true, none, none, none⟩ =
      (.error (.execution (.corruptedCodeExecution
        "block execution context must be set in block begin handler")),
        ⟨true, none, none, none⟩) :=
  C7_block_end_empty_context (fun _ s => .ok (⟨0, none⟩, s))
    ⟨true, none, none, none⟩ rfl

/-- **C6 (behavior of the code).**  `block_begin` at height 2 on a store where
the `Pools` tree exists but no genesis-time item was ever written (height 1
never processed, cache empty) fails — but with
`DriveError::CorruptedGenesisTimeNotItem` coming out of
`fetch_genesis_time`'s `if let … else` branch (which swallows the `Ok(None)`
produced for `PathKeyNotFound`), not with the `DriveIncoherence` error of the
claim; the `ok_or(DriveIncoherence)` in `block_begin` is unreachable.  No
execution context is stored. -/
theorem C6_missing_genesis_not_driveIncoherence (t : ℕ) (prev : Option ℕ) :
    blockBegin ⟨2, t, prev⟩ ⟨true, none, none, none⟩ =
      (.error (.drive .corruptedGenesisTimeNotItem),
        ⟨true, none, none, none⟩) ∧
    (∀ msg, (Error.drive .corruptedGenesisTimeNotItem) ≠
      .execution (.driveIncoherence msg)) := by
  exact ⟨rfl, fun msg h => Error.noConfusion h⟩

/-- **C2.**  For a state whose genesis time reads as `g`, `block_begin` at a
height other than 1 with block time `t ≥ g` stores an execution context whose
epoch info has `current_epoch_index = (t - g) / EPOCH_CHANGE_TIME` and
`is_epoch_change` true iff the previous block time is absent or falls in a
different epoch.  (`EpochInfo::calculate` is modelled from spec §4.4: its
module is not under src/.) -/
theorem C2_block_begin_epoch_info (s s' : PlatformState) (g t height : ℕ)
    (prev : Option ℕ) (hh : height ≠ 1)
    (hg : getGenesisTime s = (.ok (some g), s'))
    (hgt : g ≤ t) :
    ∃ ctx : BlockExecutionContext,
      blockBegin ⟨height, t, prev⟩ s =
        (.ok (), { s' with blockExecutionContext := some ctx }) ∧
      ctx.epochInfo.currentEpochIndex = (t - g) / EPOCH_CHANGE_TIME ∧
      (ctx.epochInfo.isEpochChange = true ↔
        (prev = none ∨ ∃ p, prev = some p ∧
          (p - g) / EPOCH_CHANGE_TIME ≠ (t - g) / EPOCH_CHANGE_TIME)) := by
  cases prev with
  | none =>
      have hcalc : EpochInfo.calculate g t none =
          .ok ⟨(t - g) / EPOCH_CHANGE_TIME, true⟩ := by
        unfold EpochInfo.calculate
        rw [if_neg (by omega)]
      refine ⟨BlockExecutionContext.mk height t none
        ⟨(t - g) / EPOCH_CHANGE_TIME, true⟩, ?_, rfl, ?_⟩
      · unfold blockBegin
        rw [if_neg hh, hg]
        dsimp only
        rw [hcalc]
      · simp
  | some p =>
      have hcalc : EpochInfo.calculate g t (some p) =
          .ok ⟨(t - g) / EPOCH_CHANGE_TIME,
            decide ((p - g) / EPOCH_CHANGE_TIME ≠
              (t - g) / EPOCH_CHANGE_TIME)⟩ := by
        unfold EpochInfo.calculate
        rw [if_neg (by omega)]
      refine ⟨BlockExecutionContext.mk height t (some p)
        ⟨(t - g) / EPOCH_CHANGE_TIME,
          decide ((p - g) / EPOCH_CHANGE_TIME ≠
            (t - g) / EPOCH_CHANGE_TIME)⟩, ?_, rfl, ?_⟩
      · unfold blockBegin
        rw [if_neg hh, hg]
        dsimp only
        rw [hcalc]
      · simp

/-- Witness for C2 at genesis 0, block time one epoch length, previous block
time 0, height 2, genesis cached. -/
theorem C2_block_begin_epoch_info_witness :
    ∃ ctx : BlockExecutionContext,
      blockBegin ⟨2, 1576800000, some 0⟩ ⟨true, none, some 0, none⟩ =
        (.ok (), { (⟨true, none, some 0, none⟩ : PlatformState) with
          blockExecutionContext := some ctx }) ∧
      ctx.epochInfo.currentEpochIndex =
        (1576800000 - 0) / EPOCH_CHANGE_TIME ∧
      (ctx.epochInfo.isEpochChange = true ↔
        ((some 0 : Option ℕ) = none ∨ ∃ p, (some 0 : Option ℕ) = some p ∧
          (p - 0) / EPOCH_CHANGE_TIME ≠ (1576800000 - 0) / EPOCH_CHANGE_TIME)) :=
  C2_block_begin_epoch_info ⟨true, none, some 0, none⟩
    ⟨true, none, some 0, none⟩ 0 1576800000 2 (some 0)
    (by norm_num) rfl (Nat.zero_le _)

theorem getGenesisTime_cache_hit (s : PlatformState) (t : ℕ)
    (hc : s.cacheGenesisTimeMs = some t) :
    getGenesisTime s = (.ok (some t), s) := by
  unfold getGenesisTime
  rw [hc]

/-- A `block_begin` at a height other than 1, on a state whose genesis cache
holds `t`, changes neither the genesis item, nor the cache, nor the `Pools`
tree. -/
theorem blockBegin_ne1_preserves (req : BlockBeginRequest) (s : PlatformState)
    (hh : req.blockHeight ≠ 1) (t : ℕ)
    (hc : s.cacheGenesisTimeMs = some t) :
    ((blockBegin req s).snd).genesisItem = s.genesisItem ∧
    ((blockBegin req s).snd).cacheGenesisTimeMs = some t ∧
    ((blockBegin req s).snd).poolsExists = s.poolsExists := by
  unfold blockBegin
  rw [if_neg hh, getGenesisTime_cache_hit s t hc]
  dsimp only
  cases EpochInfo.calculate t req.blockTimeMs req.previousBlockTimeMs with
  | error e => exact ⟨rfl, hc, rfl⟩
  | ok info => exact ⟨rfl, hc, rfl⟩

/-- A sequence of `block_begin` calls threaded through the state (each call
proceeds from the previous call's state, whether it succeeded or failed). -/
def blockBeginSeq (reqs : List BlockBeginRequest) (s : PlatformState) :
    PlatformState :=
  reqs.foldl (fun s req => (blockBegin req s).snd) s

theorem blockBeginSeq_preserves (reqs : List BlockBeginRequest)
    (s : PlatformState) (t : ℕ)
    (hreq : ∀ r ∈ reqs, r.blockHeight ≠ 1)
    (hc : s.cacheGenesisTimeMs = some t) :
    (blockBeginSeq reqs s).genesisItem = s.genesisItem ∧
    (blockBeginSeq reqs s).cacheGenesisTimeMs = some t ∧
    (blockBeginSeq reqs s).poolsExists = s.poolsExists := by
  induction reqs generalizing s with
  | nil => exact ⟨rfl, hc, rfl⟩
  | cons r rs ih =>
      have hp := blockBegin_ne1_preserves r s
        (hreq r (List.mem_cons_self _ _)) t hc
      have hrest := ih (blockBegin r s).snd
        (fun r hr => hreq r (List.mem_cons_of_mem _ hr)) hp.2.1
      unfold blockBeginSeq at hrest ⊢
      rw [List.foldl_cons]
      exact ⟨hrest.1.trans hp.1, hrest.2.1, hrest.2.2.trans hp.2.2⟩

/-- **C5.**  `block_begin` at height 1 with block time `t` persists `t` as the
genesis time: it writes the big-endian item exactly once, every later
`get_genesis_time` in the same process answers `some t` from the cache, a
fresh process re-reading the store also obtains `some t`, and any further
`block_begin`s at heights ≥ 2 leave the stored genesis item untouched and
still read back `some t`. -/
theorem C5_genesis_time_persistence (s : PlatformState) (t : ℕ)
    (prev : Option ℕ) (hpools : s.poolsExists = true) (ht : t ≤ U64_MAX) :
    ∃ s₁, blockBegin ⟨1, t, prev⟩ s = (.ok (), s₁) ∧
      s₁.genesisItem = some (.item (u64ToBeBytes t)) ∧
      s₁.cacheGenesisTimeMs = some t ∧
      s₁.poolsExists = true ∧
      getGenesisTime s₁ = (.ok (some t), s₁) ∧
      (∀ s' : PlatformState, s'.poolsExists = true →
        s'.genesisItem = some (.item (u64ToBeBytes t)) →
        (getGenesisTime { s' with cacheGenesisTimeMs := none }).fst =
          .ok (some t)) ∧
      (∀ reqs : List BlockBeginRequest,
        (∀ r ∈ reqs, r.blockHeight ≠ 1) →
        (blockBeginSeq reqs s₁).genesisItem =
          some (.item (u64ToBeBytes t)) ∧
        (getGenesisTime (blockBeginSeq reqs s₁)).fst = .ok (some t)) := by
  have hinit : initGenesis t s = (.ok (),
      { s with
          cacheGenesisTimeMs := some t
          genesisItem := some (.item (u64ToBeBytes t)) }) := by
    unfold initGenesis
    dsimp only
    rw [hpools]
    rfl
  obtain ⟨eInfo, hcalc⟩ : ∃ e, EpochInfo.calculate t t prev = .ok e :=
    ⟨_, by unfold EpochInfo.calculate; rw [if_neg (lt_irrefl t)]⟩
  set s₁ : PlatformState := { s with
      cacheGenesisTimeMs := some t
      genesisItem := some (.item (u64ToBeBytes t))
      blockExecutionContext :=
        some (BlockExecutionContext.mk 1 t prev eInfo) } with hs₁
  refine ⟨s₁, ?_, rfl, rfl, hpools, ?_, ?_, ?_⟩
  · unfold blockBegin
    rw [if_pos rfl, hinit]
    dsimp only
    rw [hcalc]
  · exact getGenesisTime_cache_hit s₁ t rfl
  · intro s' hp hg
    unfold getGenesisTime fetchGenesisTime groveGetGenesisItem
    dsimp only
    rw [hp, hg]
    simp [u64FromBeBytes_toBeBytes t ht]
  · intro reqs hreqs
    have hpres := blockBeginSeq_preserves reqs s₁ t hreqs rfl
    exact ⟨hpres.1.trans rfl,
      by rw [getGenesisTime_cache_hit _ t hpres.2.1]⟩

/-- Witness for C5 on an empty initialized store at `t = 7`. -/
theorem C5_genesis_time_persistence_witness :
    ∃ s₁, blockBegin ⟨1, 7, none⟩ ⟨true, none, none, none⟩ = (.ok (), s₁) ∧
      s₁.genesisItem = some (.item (u64ToBeBytes 7)) ∧
      s₁.cacheGenesisTimeMs = some 7 ∧
      s₁.poolsExists = true ∧
      getGenesisTime s₁ = (.ok (some 7), s₁) ∧
      (∀ s' : PlatformState, s'.poolsExists = true →
        s'.genesisItem = some (.item (u64ToBeBytes 7)) →
        (getGenesisTime { s' with cacheGenesisTimeMs := none }).fst =
          .ok (some 7)) ∧
      (∀ reqs : List BlockBeginRequest,
        (∀ r ∈ reqs, r.blockHeight ≠ 1) →
        (blockBeginSeq reqs s₁).genesisItem =
          some (.item (u64ToBeBytes 7)) ∧
        (getGenesisTime (blockBeginSeq reqs s₁)).fst = .ok (some 7)) :=
  C5_genesis_time_persistence ⟨true, none, none, none⟩ 7 none rfl
    (by norm_num [U64_MAX])

/-! ## Finding the next epoch start-block height
(src/drive/src/drive/fee_pools/epochs/start_block.rs,
`Drive::find_next_epoch_stat_block_height`) -/

/-- Modelled from the spec: the grovedb range query the function issues —
`insert_range_after_to_inclusive(from..=to)` over the epoch keys with
subquery key `"c"` and limit 1 — is executed by the store, an external
collaborator.  Spec §4.2 fixes its contract ("range query over
`E(from+1..=to)/c`, returning the *first* present pair") and the function's
in-src tests (start_block.rs lines 200-303) fix the returned `u16` component
to be the found epoch's index.  The scan walks the epoch indices
`from+1, from+2, …` in key order and stops at the first present
start-block-height item. -/
def findFirstStartBlockHeight (heights : ℕ → Option ℕ) :
    ℕ → ℕ → Option (ℕ × ℕ)
  | _, 0 => none
  | start, n + 1 =>
      match heights (start + 1) with
      | some h => some (start + 1, h)
      | none => findFirstStartBlockHeight heights (start + 1) n

/-- `Drive::find_next_epoch_stat_block_height` over the spec-modelled store
query: `none` when no epoch in `(from, to]` has a start-block-height item,
otherwise the first present `(epoch_index, height)` pair. -/
def findNextEpochStartBlockHeight (heights : ℕ → Option ℕ)
    (fromIndex toIndex : ℕ) : Option (ℕ × ℕ) :=
  findFirstStartBlockHeight heights fromIndex (toIndex - fromIndex)

theorem findFirstStartBlockHeight_eq_none (heights : ℕ → Option ℕ)
    (start n : ℕ) :
    findFirstStartBlockHeight heights start n = none ↔
      ∀ j, start < j → j ≤ start + n → heights j = none := by
  induction n generalizing start with
  | zero =>
      simp only [findFirstStartBlockHeight]
      constructor
      · intro _ j hj₁ hj₂
        omega
      · intro _
        trivial
  | succ n ih =>
      rw [findFirstStartBlockHeight]
      cases hh : heights (start + 1) with
      | some h =>
          simp only []
          constructor
          · intro hcon
            exact Option.noConfusion hcon
          · intro hall
            rw [hall (start + 1) (by omega) (by omega)] at hh
            exact Option.noConfusion hh
      | none =>
          simp only []
          rw [ih (start + 1)]
          constructor
          · intro hall j hj₁ hj₂
            rcases Nat.lt_or_ge (start + 1) j with hgt | hle
            · exact hall j hgt (by omega)
            · have : j = start + 1 := by omega
              rw [this]
              exact hh
          · intro hall j hj₁ hj₂
            exact hall j (by omega) (by omega)

theorem findFirstStartBlockHeight_first (heights : ℕ → Option ℕ)
    (start n j h : ℕ) (hj₁ : start < j) (hj₂ : j ≤ start + n)
    (hjh : heights j = some h)
    (hbefore : ∀ j', start < j' → j' < j → heights j' = none) :
    findFirstStartBlockHeight heights start n = some (j, h) := by
  induction n generalizing start with
  | zero => omega
  | succ n ih =>
      rw [findFirstStartBlockHeight]
      rcases Nat.lt_or_ge (start + 1) j with hgt | hle
      · rw [hbefore (start + 1) (by omega) hgt]
        exact ih (start + 1) (by omega) (by omega)
          (fun j' hj'₁ hj'₂ => hbefore j' (by omega) hj'₂)
      · have hje : j = start + 1 := by omega
        rw [← hje, hjh]

/-- **C4.**  For every pair of epoch indices, the search returns `none` when
no epoch in `(from, to]` has a start-block-height item, and otherwise the
first present `(epoch_index, start_block_height)` pair of that range, the
returned index being that epoch's own. -/
theorem C4_find_next_epoch_start_block_height (heights : ℕ → Option ℕ)
    (fromIndex toIndex : ℕ) :
    (findNextEpochStartBlockHeight heights fromIndex toIndex = none ↔
      ∀ j, fromIndex < j → j ≤ toIndex → heights j = none) ∧
    (∀ j h, fromIndex < j → j ≤ toIndex → heights j = some h →
      (∀ j', fromIndex < j' → j' < j → heights j' = none) →
      findNextEpochStartBlockHeight heights fromIndex toIndex =
        some (j, h)) := by
  constructor
  · unfold findNextEpochStartBlockHeight
    rw [findFirstStartBlockHeight_eq_none]
    constructor
    · intro hall j hj₁ hj₂
      exact hall j hj₁ (by omega)
    · intro hall j hj₁ hj₂
      exact hall j hj₁ (by omega)
  · intro j h hj₁ hj₂ hjh hbefore
    exact findFirstStartBlockHeight_first heights fromIndex _ j h hj₁
      (by omega) hjh hbefore

/-! ## Fixed-width item getters and corrupted lengths
(src/drive/src/drive/genesis_time/mod.rs `fetch_genesis_time`;
src/drive/src/fee/pools/storage_fee_pool.rs `get_storage_fee_pool`;
src/drive/src/drive/fee_pools/epochs/credit_distribution_pools.rs
`get_epoch_storage_credits_for_distribution`)

These getters are embedded at the byte level, parameterized over the result
of the underlying `grove.get`. -/

/-- An `f64` value modelled by its 8-byte bit pattern: the numeric
interpretation plays no role in the embedded claims, only the length check
(`item.as_slice().try_into()` into `[u8; 8]`) does. -/
structure F64 where
  bits : List ℕ
  deriving DecidableEq, Repr

/-- `FeePools::get_storage_fee_pool`: the aggregate pool item at
`Pools/"s"` read as an `f64`; a stored length other than 8 is
`CorruptedStorageFeePoolInvalidItemLength`. -/
def getStorageFeePool (res : Except GroveError Element) : Except Error F64 :=
  match res with
  | .error e => .error (.groveDB e)
  | .ok (.item bytes) =>
      if bytes.length = 8 then .ok ⟨bytes⟩
      else .error (.fee (.corruptedStorageFeePoolInvalidItemLength
        "fee pools storage fee pool item have an invalid length"))
  | .ok .tree => .error (.fee (.corruptedStorageFeePoolNotItem
      "fee pools storage fee pool must be an item"))

/-- `Drive::get_epoch_storage_credits_for_distribution` at the byte level:
the epoch's storage-credit item read as a big-endian `u64`.  On a stored
length other than 8 the source returns the PROCESSING-fee variant
`CorruptedProcessingFeeInvalidItemLength("epochs processing fee is not
u64")`, not the storage-fee variant its own test expects. -/
def getEpochStorageCreditsForDistribution (res : Except GroveError Element) :
    Except Error ℕ :=
  match res with
  | .error e => .error (.groveDB e)
  | .ok (.item bytes) =>
      match u64FromBeBytes bytes with
      | some v => .ok v
      | none => .error (.fee (.corruptedProcessingFeeInvalidItemLength
          "epochs processing fee is not u64"))
  | .ok .tree => .error (.fee (.corruptedStorageFeeNotItem
      "epochs storage fee must be an item"))

/-- **C9 (behavior of the code).**  On a 16-byte item: the genesis-time
getter fails with `CorruptedGenesisTimeInvalidItemLength` and the pool getter
with `CorruptedStorageFeePoolInvalidItemLength` — the matching variants — but
the epoch storage-credit getter fails with
`CorruptedProcessingFeeInvalidItemLength`, which is not the storage-fee
variant required by the claim and by the getter's own test.  None of the
three getters ever produces a value from an item whose length is not 8
(no truncation). -/
theorem C9_corrupted_length_behavior :
    fetchGenesisTime ⟨true, some (.item (List.replicate 16 0)), none, none⟩ =
      .error (.drive .corruptedGenesisTimeInvalidItemLength) ∧
    getStorageFeePool (.ok (.item (List.replicate 16 0))) =
      .error (.fee (.corruptedStorageFeePoolInvalidItemLength
        "fee pools storage fee pool item have an invalid length")) ∧
    getEpochStorageCreditsForDistribution
        (.ok (.item (List.replicate 16 0))) =
      .error (.fee (.corruptedProcessingFeeInvalidItemLength
        "epochs processing fee is not u64")) ∧
    (∀ msg, (Error.fee (.corruptedProcessingFeeInvalidItemLength
        "epochs processing fee is not u64")) ≠
      .fee (.corruptedStorageFeeInvalidItemLength msg)) ∧
    (∀ bytes : List ℕ, ∀ v : ℕ, bytes.length ≠ 8 →
      getEpochStorageCreditsForDistribution (.ok (.item bytes)) ≠ .ok v) ∧
    (∀ s : PlatformState, ∀ bytes : List ℕ, ∀ t : ℕ, bytes.length ≠ 8 →
      s.genesisItem = some (.item bytes) →
      fetchGenesisTime s ≠ .ok (some t)) := by
  refine ⟨rfl, rfl, rfl, ?_, ?_, ?_⟩
  · intro msg h
    injection h with h'
    exact FeeError.noConfusion h'
  · intro bytes v hlen
    unfold getEpochStorageCreditsForDistribution
    dsimp only
    rw [(u64FromBeBytes_eq_none_iff bytes).mpr hlen]
    intro hcon
    exact Except.noConfusion hcon
  · intro s bytes t hlen hg
    unfold fetchGenesisTime groveGetGenesisItem
    cases hp : s.poolsExists with
    | false =>
        intro hcon
        exact Except.noConfusion hcon
    | true =>
        rw [hg]
        simp [(u64FromBeBytes_eq_none_iff bytes).mpr hlen]

/-! ## Proposer tree emptiness
(src/drive/src/fee/pools/epoch/proposers.rs,
`EpochPool::is_proposers_tree_empty`) -/

/-- `grove.is_empty_tree` at an epoch's proposers path `E(i)/"r"`, over a
store that holds `none` when the path (the epoch subtree or its proposers
tree) is absent: an absent path is the store's `PathNotFound` error. -/
def groveIsEmptyTree (proposers : Option (List (List ℕ × ℕ))) :
    Except GroveError Bool :=
  match proposers with
  | none => .error .pathNotFound
  | some l => .ok l.isEmpty

/-- `EpochPool::is_proposers_tree_empty`: `Ok(result)` passes through,
`PathNotFound` becomes `Ok(true)`, every other store error becomes
`DriveError::CorruptedCodeExecution("internal grovedb error")`. -/
def isProposersTreeEmpty (res : Except GroveError Bool) : Except Error Bool :=
  match res with
  | .ok result => .ok result
  | .error err =>
      match err with
      | .pathNotFound => .ok true
      | _ => .error (.drive (.corruptedCodeExecution "internal grovedb error"))

/-- **C10.**  An absent proposers path reads as an empty proposer set
(`Ok(true)`), a present path reads its actual emptiness, and every store
failure other than `PathNotFound` is mapped to `CorruptedCodeExecution`. -/
theorem C10_is_proposers_tree_empty_edge_cases :
    (∀ store : ℕ → Option (List (List ℕ × ℕ)), ∀ i : ℕ, store i = none →
      isProposersTreeEmpty (groveIsEmptyTree (store i)) = .ok true) ∧
    (∀ l : List (List ℕ × ℕ),
      isProposersTreeEmpty (groveIsEmptyTree (some l)) = .ok l.isEmpty) ∧
    (∀ e : GroveError, e ≠ .pathNotFound →
      isProposersTreeEmpty (.error e) =
        .error (.drive (.corruptedCodeExecution "internal grovedb error"))) := by
  refine ⟨?_, fun l => rfl, ?_⟩
  · intro store i hi
    rw [hi]
    rfl
  · intro e he
    cases e with
    | pathNotFound => exact absurd rfl he
    | pathKeyNotFound => rfl
    | invalidPath => rfl
    | otherInternal => rfl
